import Mathlib

/-!
Verification development for the go-back-coin-service repository.

The Ledger Engine (`internal/db`, file with `Store.CreateAccount`,
`Store.Recharge`, `Store.BatchRecharge`, `Store.Use`, `Store.Transfer`,
`Store.SetCoinsExact`, `Store.TouchUsage`, `Store.DeleteAccount`,
`Store.ListAccounts`) and the Admission Gateway (`internal/middleware`,
`extractAPIs` and `GraphQLRateLimit`) are embedded shallowly:

* the `public.coins` table is a list of `Account` rows; SQL point updates
  (`UPDATE ... WHERE id=$1`) become `updateRow`, `SELECT ... WHERE id=$1`
  becomes `List.find?`;
* Go `int64` balances are unbounded `Int` (Postgres BIGINT raises an error
  on out-of-range arithmetic instead of wrapping, so overflow never
  produces a wrapped value; all in-range behavior agrees with `Int`);
* timestamps (`NOW()`, `time.Now()`) are a `now : Nat` parameter; each
  operation stamps the single instant at which it runs;
* the external notifier (`TxNotifier.Create`) is a `deliver : Notif → Bool`
  oracle; `Store.notify` records the attempted notification and, exactly as
  the Go code does, logs a failure and discards the error;
* a Go nil-pointer dereference (reading `acc.Coins` from a nil `*Account`)
  is the explicit error `StoreErr.nilDeref`.
-/

/-- Account mirrors the Go struct `db.Account` (row of `public.coins`):
`id TEXT PRIMARY KEY`, `coins BIGINT`, `last_recharge_date`,
`last_usage_date` (nullable timestamps). -/
structure Account where
  id : String
  coins : Int
  lastRechargeDate : Option Nat
  lastUsageDate : Option Nat
deriving DecidableEq, Repr

/-- The `public.coins` table: a list of rows. -/
abbrev CoinDB := List Account

/-- Errors produced by the `db` layer. Constructors carry the data used in
the Go error messages; `errText` renders the exact message strings. -/
inductive StoreErr where
  /-- `errors.New`/`fmt.Errorf` amount validation, e.g. `recharge: amount must be > 0`. -/
  | invalidAmount (msg : String)
  /-- `errors.New("userID is required (UUID)")`. -/
  | emptyUserID
  /-- `canonicalUUID` failure: `invalid userID (must be UUID): ...`. -/
  | invalidUUID
  /-- `pgx.ErrNoRows` from `SELECT ... FOR UPDATE` on a missing row. -/
  | noRows
  /-- `use: insufficient balance (have %d, need %d)`. -/
  | insufficient (avail req : Int)
  /-- `transfer: insufficient balance on %s`. -/
  | insufficientTransfer (src : String)
  /-- Go runtime panic from dereferencing a nil `*Account`
  (e.g. `slog.Int64("coins", acc.Coins)` after a not-found readback). -/
  | nilDeref
deriving DecidableEq, Repr

/-- Renders the Go error message of each `StoreErr`, as produced by
`errors.New` / `fmt.Errorf` in the source. -/
def errText : StoreErr → String
  | .invalidAmount msg => msg
  | .emptyUserID => "userID is required (UUID)"
  | .invalidUUID => "invalid userID (must be UUID): invalid UUID format"
  | .noRows => "no rows in result set"
  | .insufficient a r =>
      "use: " ++ "insufficient balance" ++ " (have " ++ toString a ++ ", need " ++ toString r ++ ")"
  | .insufficientTransfer src => "transfer: insufficient balance on " ++ src
  | .nilDeref => "runtime error: invalid memory address or nil pointer dereference"

/-- Result of a `db.Store` operation: the Go `(value, error)` pair. -/
inductive DbResult (α : Type) where
  | ok (val : α)
  | err (e : StoreErr)
deriving DecidableEq, Repr

/-- One notification handed to `TxNotifier.Create` by `Store.notify`:
`(userID, coinID, dataID, coinUsed, ts)`. The Go code converts the amount
to `float64` at the call; we keep the pre-conversion integer. -/
structure Notif where
  userID : String
  coinID : String
  dataID : String
  amount : Int
  ts : Nat
deriving DecidableEq, Repr

/-- Observability-sink entries: `Store.notify` logs a failed delivery
(`l.Error("notify: failed", ...)`) and otherwise returns normally. -/
inductive LogEntry where
  | notifyFailed (n : Notif)
deriving DecidableEq, Repr

/-- Full outcome of one operation: returned result, the table after the
operation, the notifications attempted (in call order), and the failure
log entries. -/
structure OpOut (ρ : Type) where
  result : ρ
  state : CoinDB
  notifs : List Notif
  logs : List LogEntry
deriving DecidableEq, Repr

/-- Outcome of a `db.Store` operation returning a value of type `α`. -/
abbrev StoreOut (α : Type) := OpOut (DbResult α)

/-- Characters treated as white space by Go's `strings.TrimSpace` on ASCII
input (`unicode.IsSpace`: space, tab, newline, vertical tab, form feed,
carriage return; non-ASCII space code points are out of scope here). -/
def isTrimSpace (c : Char) : Bool :=
  c = ' ' || c = '\t' || c = '\n' || c = '\x0b' || c = '\x0c' || c = '\r'

/-- Characters matched by the Go regexp class `\s` (RE2: `[\t\n\f\r ]`). -/
def isReSpace (c : Char) : Bool :=
  c = ' ' || c = '\t' || c = '\n' || c = '\x0c' || c = '\r'

/-- Drops leading characters satisfying `p`. -/
def dropLeading (p : Char → Bool) : List Char → List Char
  | [] => []
  | c :: rest => if p c then dropLeading p rest else c :: rest

/-- Go `strings.TrimSpace` on the character list of a string. -/
def trimChars (l : List Char) : List Char :=
  ((dropLeading isTrimSpace (dropLeading isTrimSpace l.reverse).reverse))

/-- Go `strings.TrimSpace`. -/
def goTrim (s : String) : String := ⟨trimChars s.data⟩

/-- Hex digit test for UUID parsing (`0-9a-fA-F`). -/
def isHexChar (c : Char) : Bool :=
  (('0' ≤ c && c ≤ '9') || ('a' ≤ c && c ≤ 'f') || ('A' ≤ c && c ≤ 'F'))

/-- Checks the canonical 36-character hyphenated UUID layout
`xxxxxxxx-xxxx-xxxx-xxxx-xxxxxxxxxxxx`. Models the primary format accepted
by the external `github.com/google/uuid` `Parse` (the other accepted
wrappings of the same hex digits are not exercised by this service). -/
def uuidLayoutOk (l : List Char) : Bool :=
  l.length = 36 &&
  (List.range 36).all (fun i =>
    match l[i]? with
    | none => false
    | some c =>
      if i = 8 || i = 13 || i = 18 || i = 23 then c = '-' else isHexChar c)

/-- Models `canonicalUUID` from the source: `uuid.Parse(strings.TrimSpace(s))`
followed by `u.String()` (lower-case canonical form); `none` is the parse
error path `invalid userID (must be UUID)`. -/
def canonicalUUID (s : String) : Option String :=
  let t := trimChars s.data
  if uuidLayoutOk t then some ⟨t.map Char.toLower⟩ else none

/-- SQL `SELECT ... FROM public.coins WHERE id=$1` (`Store.GetAccount`):
first row whose id matches; `none` is the `pgx.ErrNoRows` → `(nil, nil)`
not-found result. -/
def GetAccount (s : CoinDB) (id : String) : Option Account :=
  s.find? (fun r => r.id == id)

/-- SQL `UPDATE public.coins SET ... WHERE id=$1`: applies `f` to every row
whose id matches (zero matching rows make this the identity, which is not
an error for `Exec`). -/
def updateRow (s : CoinDB) (id : String) (f : Account → Account) : CoinDB :=
  s.map (fun r => if r.id == id then f r else r)

/-- Number of rows affected by an `UPDATE ... WHERE id = ANY($1)` /
`WHERE id=$1` style statement (`pgconn.CommandTag.RowsAffected`). -/
def rowsMatching (s : CoinDB) (p : Account → Bool) : Nat :=
  (s.filter p).length

/-- Models `Store.notify` followed by `TxNotifier.Create`: the delivery
outcome comes from the `deliver` oracle; a failure is logged
(`l.Error("notify: failed", ...)`) and the error is discarded, exactly as
in the Go code, so the caller observes nothing. -/
def notifyRun (deliver : Notif → Bool) (n : Notif) : List LogEntry :=
  if deliver n then [] else [LogEntry.notifyFailed n]

/-- Synthesized event id for a single recharge:
`fmt.Sprintf("recharge:%s:%d", coinID, now.UnixNano())`. -/
def rechargeDataID (coinID : String) (now : Nat) : String :=
  "recharge:" ++ coinID ++ ":" ++ toString now

/-- Synthesized event id for a batch-recharge leg:
`fmt.Sprintf("batchrecharge:%s:%d", cid, now.UnixNano())`. -/
def batchDataID (cid : String) (now : Nat) : String :=
  "batchrecharge:" ++ cid ++ ":" ++ toString now

/-- Synthesized event id for a use:
`fmt.Sprintf("use:%s:%d", coinID, now.UnixNano())`. -/
def useDataID (coinID : String) (now : Nat) : String :=
  "use:" ++ coinID ++ ":" ++ toString now

/-- Synthesized event id for a set-exact:
`fmt.Sprintf("setexact:%s:%d", coinID, now.UnixNano())`. -/
def setExactDataID (coinID : String) (now : Nat) : String :=
  "setexact:" ++ coinID ++ ":" ++ toString now

/-- Models `Store.CreateAccount`: `INSERT ... ON CONFLICT (id) DO NOTHING`
with initial balance `coins` (default 0, unvalidated), then a readback via
`GetAccount`; the final `log.Info` reads `acc.Coins`, so a nil readback
would panic (`nilDeref`). -/
def CreateAccount (s : CoinDB) (id : String) (coins : Option Int) : StoreOut Account :=
  let initial := coins.getD 0
  let s1 := match GetAccount s id with
    | some _ => s
    | none => s ++ [⟨id, initial, none, none⟩]
  match GetAccount s1 id with
  | some a => { result := .ok a, state := s1, notifs := [], logs := [] }
  | none => { result := .err .nilDeref, state := s1, notifs := [], logs := [] }

/-- Models `Store.DeleteAccount`: `DELETE FROM public.coins WHERE id=$1`,
returning whether `RowsAffected() > 0`. -/
def DeleteAccount (s : CoinDB) (id : String) : StoreOut Bool :=
  let n := rowsMatching s (fun r => r.id == id)
  { result := .ok (decide (0 < n)),
    state := s.filter (fun r => !(r.id == id)),
    notifs := [], logs := [] }

/-- Models `Store.TouchUsage`: `UPDATE public.coins SET last_usage_date =
NOW() WHERE id=$1` (zero rows affected is not checked), then a readback.
The closing `log.Debug` does not dereference the account, so a missing id
returns `(nil, nil)` — a successful call with a null account. -/
def TouchUsage (s : CoinDB) (id : String) (now : Nat) : StoreOut (Option Account) :=
  let s1 := updateRow s id (fun r => { r with lastUsageDate := some now })
  { result := .ok (GetAccount s1 id), state := s1, notifs := [], logs := [] }

/-- Models `Store.Recharge`: validates `amount > 0`, a non-blank `userID`
and its UUID form; runs `UPDATE ... SET coins = coins + $2,
last_recharge_date = NOW() WHERE id=$1` (row count unchecked); reads the
account back; synthesizes the event id if blank and notifies; finally
`log.Info` reads `acc.Coins`, so a nil readback panics after the
notification was already sent. -/
def Recharge (s : CoinDB) (coinID : String) (amount : Int) (userID dataID : String)
    (now : Nat) (deliver : Notif → Bool) : StoreOut Account :=
  if amount ≤ 0 then
    { result := .err (.invalidAmount "recharge: amount must be > 0"), state := s, notifs := [], logs := [] }
  else if goTrim userID = "" then
    { result := .err .emptyUserID, state := s, notifs := [], logs := [] }
  else
    match canonicalUUID userID with
    | none => { result := .err .invalidUUID, state := s, notifs := [], logs := [] }
    | some uid =>
      let s1 := updateRow s coinID
        (fun r => { r with coins := r.coins + amount, lastRechargeDate := some now })
      let d := if goTrim dataID = "" then rechargeDataID coinID now else dataID
      let n : Notif := ⟨uid, coinID, d, amount, now⟩
      match GetAccount s1 coinID with
      | some a =>
        { result := .ok a, state := s1, notifs := [n], logs := notifyRun deliver n }
      | none =>
        { result := .err .nilDeref, state := s1, notifs := [n], logs := notifyRun deliver n }

/-- Models `Store.BatchRecharge`: same validations as `Recharge`; one
`UPDATE ... WHERE id = ANY($1)` statement whose `RowsAffected` is the
returned count; then one notification per element of `coinIDs` (existing
or not), with per-id event ids derived from `baseDataID` or synthesized. -/
def BatchRecharge (s : CoinDB) (coinIDs : List String) (amount : Int)
    (userID baseDataID : String) (now : Nat) (deliver : Notif → Bool) : StoreOut Int :=
  if amount ≤ 0 then
    { result := .err (.invalidAmount "batchRecharge: amount must be > 0"), state := s, notifs := [], logs := [] }
  else if goTrim userID = "" then
    { result := .err .emptyUserID, state := s, notifs := [], logs := [] }
  else
    match canonicalUUID userID with
    | none => { result := .err .invalidUUID, state := s, notifs := [], logs := [] }
    | some uid =>
      let s1 := s.map (fun r =>
        if coinIDs.contains r.id then
          { r with coins := r.coins + amount, lastRechargeDate := some now }
        else r)
      let ns := coinIDs.map (fun cid =>
        let d := if goTrim baseDataID = "" then batchDataID cid now else baseDataID ++ ":" ++ cid
        (⟨uid, cid, d, amount, now⟩ : Notif))
      { result := .ok ((rowsMatching s (fun r => coinIDs.contains r.id) : Nat) : Int),
        state := s1,
        notifs := ns,
        logs := (ns.map (fun n => notifyRun deliver n)).flatten }

/-- Models `Store.Use`: validations as in `Recharge` (message `use: amount
must be > 0`); then, in one transaction, `SELECT coins ... FOR UPDATE`
(missing row → `pgx.ErrNoRows`, rollback), the insufficient-balance check,
the decrement with `last_usage_date = NOW()`, and the commit; then a
readback and one notification. `log.Info` reads `acc.Coins`, so a nil
readback panics after the notification. -/
def Use (s : CoinDB) (coinID : String) (amount : Int) (userID dataID : String)
    (now : Nat) (deliver : Notif → Bool) : StoreOut Account :=
  if amount ≤ 0 then
    { result := .err (.invalidAmount "use: amount must be > 0"), state := s, notifs := [], logs := [] }
  else if goTrim userID = "" then
    { result := .err .emptyUserID, state := s, notifs := [], logs := [] }
  else
    match canonicalUUID userID with
    | none => { result := .err .invalidUUID, state := s, notifs := [], logs := [] }
    | some uid =>
      match GetAccount s coinID with
      | none => { result := .err .noRows, state := s, notifs := [], logs := [] }
      | some cur =>
        if cur.coins < amount then
          { result := .err (.insufficient cur.coins amount), state := s, notifs := [], logs := [] }
        else
          let s1 := updateRow s coinID
            (fun r => { r with coins := r.coins - amount, lastUsageDate := some now })
          let d := if goTrim dataID = "" then useDataID coinID now else dataID
          let n : Notif := ⟨uid, coinID, d, amount, now⟩
          match GetAccount s1 coinID with
          | some a =>
            { result := .ok a, state := s1, notifs := [n], logs := notifyRun deliver n }
          | none =>
            { result := .err .nilDeref, state := s1, notifs := [n], logs := notifyRun deliver n }

/-- Models `Store.Transfer`: validations (`transfer: amount must be > 0`,
userID checks); in one transaction: `SELECT coins ... FOR UPDATE` on the
source (missing → `pgx.ErrNoRows`, rollback), sufficiency check, debit of
the source with `last_usage_date = NOW()`, credit of the destination with
`last_recharge_date = NOW()` (zero rows affected is not checked), commit;
readbacks of both rows (either may be nil without error); two
notifications with distinct derived event ids. The closing log does not
dereference the accounts. -/
def Transfer (s : CoinDB) (fromID toID : String) (amount : Int) (userID dataID : String)
    (now : Nat) (deliver : Notif → Bool) : StoreOut (Option Account × Option Account) :=
  if amount ≤ 0 then
    { result := .err (.invalidAmount "transfer: amount must be > 0"), state := s, notifs := [], logs := [] }
  else if goTrim userID = "" then
    { result := .err .emptyUserID, state := s, notifs := [], logs := [] }
  else
    match canonicalUUID userID with
    | none => { result := .err .invalidUUID, state := s, notifs := [], logs := [] }
    | some uid =>
      match GetAccount s fromID with
      | none => { result := .err .noRows, state := s, notifs := [], logs := [] }
      | some fromCur =>
        if fromCur.coins < amount then
          { result := .err (.insufficientTransfer fromID), state := s, notifs := [], logs := [] }
        else
          let s1 := updateRow s fromID
            (fun r => { r with coins := r.coins - amount, lastUsageDate := some now })
          let s2 := updateRow s1 toID
            (fun r => { r with coins := r.coins + amount, lastRechargeDate := some now })
          let outID := if goTrim dataID = "" then
              "transfer:out:" ++ fromID ++ "->" ++ toID ++ ":" ++ toString now
            else dataID ++ ":out"
          let inID := if goTrim dataID = "" then
              "transfer:in:" ++ fromID ++ "->" ++ toID ++ ":" ++ toString now
            else dataID ++ ":in"
          let nOut : Notif := ⟨uid, fromID, outID, amount, now⟩
          let nIn : Notif := ⟨uid, toID, inID, amount, now⟩
          { result := .ok (GetAccount s2 fromID, GetAccount s2 toID),
            state := s2,
            notifs := [nOut, nIn],
            logs := notifyRun deliver nOut ++ notifyRun deliver nIn }

/-- Models `Store.SetCoinsExact`: validates the userID (blank, then UUID);
reads the current row to compute the delta (errors from that read are
discarded: `cur, _ := s.GetAccount(...)`); `UPDATE ... SET coins=$2 WHERE
id=$1` (no timestamp change, no validation of a negative target, row count
unchecked); readback; if the old row existed and the balance changed, one
notification with `|new − old|`; finally `log.Info` reads `acc.Coins`, so
a nil readback panics (with no notification sent, since the
`cur != nil && ...` guard short-circuits). -/
def SetCoinsExact (s : CoinDB) (coinID : String) (coins : Int) (userID dataID : String)
    (now : Nat) (deliver : Notif → Bool) : StoreOut Account :=
  if goTrim userID = "" then
    { result := .err .emptyUserID, state := s, notifs := [], logs := [] }
  else
    match canonicalUUID userID with
    | none => { result := .err .invalidUUID, state := s, notifs := [], logs := [] }
    | some uid =>
      let cur := GetAccount s coinID
      let s1 := updateRow s coinID (fun r => { r with coins := coins })
      match GetAccount s1 coinID with
      | none => { result := .err .nilDeref, state := s1, notifs := [], logs := [] }
      | some a =>
        match cur with
        | some c =>
          if a.coins ≠ c.coins then
            let d := if goTrim dataID = "" then setExactDataID coinID now else dataID
            let n : Notif := ⟨uid, coinID, d, (a.coins - c.coins).natAbs, now⟩
            { result := .ok a, state := s1, notifs := [n], logs := notifyRun deliver n }
          else
            { result := .ok a, state := s1, notifs := [], logs := [] }
        | none =>
          { result := .ok a, state := s1, notifs := [], logs := [] }

/-- Models `Store.ListAccounts`: clamps the limit to 50 when outside
`(0, 200]` and the offset to 0 when negative, then
`SELECT ... ORDER BY id LIMIT $1 OFFSET $2`. The SQL sort is modeled as an
insertion sort on the text id. -/
def sortById (s : CoinDB) : CoinDB :=
  List.insertionSort (fun a b => a.id ≤ b.id) s

/-- Effective limit after `Store.ListAccounts`'s clamp
(`if limit <= 0 || limit > 200 { limit = 50 }`). -/
def effLimit (limit : Int) : Int :=
  if limit ≤ 0 ∨ 200 < limit then 50 else limit

/-- Effective offset after `Store.ListAccounts`'s clamp
(`if offset < 0 { offset = 0 }`). -/
def effOffset (offset : Int) : Int :=
  if offset < 0 then 0 else offset

/-- Models `Store.ListAccounts` itself. -/
def ListAccounts (s : CoinDB) (limit offset : Int) : List Account :=
  (((sortById s).drop (effOffset offset).toNat).take (effLimit limit).toNat)

instance : IsTotal Account (fun a b => a.id ≤ b.id) :=
  ⟨fun a b => le_total a.id b.id⟩

instance : IsTrans Account (fun a b => a.id ≤ b.id) :=
  ⟨fun _ _ _ h1 h2 => le_trans h1 h2⟩

/-- Go `strings.Contains(hay, needle)`. -/
def hasSub (hay needle : List Char) : Bool :=
  match hay with
  | [] => needle.isEmpty
  | _ :: rest => needle.isPrefixOf hay || hasSub rest needle

/-- Models `grpcserver.isInsufficient`: a crude
`strings.Contains(err.Error(), "insufficient balance")` check on the
error message. -/
def isInsufficient (e : StoreErr) : Bool :=
  hasSub (errText e).data "insufficient balance".data

/-- gRPC status codes used by `grpcserver.CoinsServer`. -/
inductive GrpcCode where
  | invalidArgument
  | failedPrecondition
  | internal
deriving DecidableEq, Repr

/-- Wire reply built by `grpcserver.toReply` (timestamps kept as the raw
instants instead of their RFC3339 rendering). -/
structure AccountReply where
  id : String
  coins : Int
  lastRechargeDate : Option Nat
  lastUsageDate : Option Nat
deriving DecidableEq, Repr

/-- Result of a `CoinsServer` RPC: a reply or a gRPC status error. -/
inductive GrpcResult where
  | ok (r : AccountReply)
  | err (code : GrpcCode) (msg : String)
deriving DecidableEq, Repr

/-- Models `grpcserver.toReply` on a non-nil account. -/
def toReply (a : Account) : AccountReply :=
  ⟨a.id, a.coins, a.lastRechargeDate, a.lastUsageDate⟩

/-- Models `CoinsServer.Deplete`: validates a non-blank id, `amount > 0`
and a non-blank user id, then calls `Store.Use`; an error containing
"insufficient balance" maps to `FailedPrecondition`, any other `Use` error
to `Internal` (prefixed `deplete:`). -/
def Deplete (s : CoinDB) (id : String) (amount : Int) (userID dataID : String)
    (now : Nat) (deliver : Notif → Bool) : OpOut GrpcResult :=
  if goTrim id = "" then
    { result := .err .invalidArgument "id is required", state := s, notifs := [], logs := [] }
  else if amount ≤ 0 then
    { result := .err .invalidArgument "amount must be > 0", state := s, notifs := [], logs := [] }
  else if goTrim userID = "" then
    { result := .err .invalidArgument "user_id (UUID) is required", state := s, notifs := [], logs := [] }
  else
    let o := Use s id amount userID dataID now deliver
    match o.result with
    | .ok a => { result := .ok (toReply a), state := o.state, notifs := o.notifs, logs := o.logs }
    | .err e =>
      if isInsufficient e then
        { result := .err .failedPrecondition (errText e), state := o.state, notifs := o.notifs, logs := o.logs }
      else
        { result := .err .internal ("deplete: " ++ errText e), state := o.state, notifs := o.notifs, logs := o.logs }

/-- One collapsing pass of `spaceRE.ReplaceAllString(query, " ")`: each
maximal run of `\s` characters becomes a single space. -/
def collapseWs : List Char → List Char
  | [] => []
  | [c] => [if isReSpace c then ' ' else c]
  | c1 :: c2 :: rest =>
    if isReSpace c1 && isReSpace c2 then collapseWs (c2 :: rest)
    else (if isReSpace c1 then ' ' else c1) :: collapseWs (c2 :: rest)

/-- Splits at the first `{` (`strings.Index(q, "{")`): everything before
it, and the rest starting with the brace; `none` when there is no brace.
Byte offsets coincide with character offsets for the ASCII documents this
service handles. -/
def splitAtBrace : List Char → Option (List Char × List Char)
  | [] => none
  | c :: rest =>
    if c = '{' then some ([], c :: rest)
    else (splitAtBrace rest).map (fun p => (c :: p.1, p.2))

/-- Characters after the first `:`, if any (`strings.Index(s, ":")` and the
slice `s[idx+1:]`). -/
def afterColon : List Char → Option (List Char)
  | [] => none
  | c :: rest => if c = ':' then some rest else afterColon rest

/-- Field-scanner state of `extractAPIs`: brace depth, the name builder
`b`, the `inName` flag, and the collected fields. -/
structure ExtractSt where
  depth : Int
  buf : List Char
  inName : Bool
  fields : List String
deriving Repr

/-- The `flush` closure of `extractAPIs`: strips an alias (`alias: field`
keeps the part after the first colon), trims, drops empty strings and the
keywords `query`, `mutation`, `subscription`, `fragment`, `on`, appends
the survivor to the field list, and resets the builder. -/
def exFlush (st : ExtractSt) : ExtractSt :=
  if st.buf.isEmpty then st
  else
    let s1 := match afterColon st.buf with
      | some rest => trimChars rest
      | none => st.buf
    let str : String := ⟨trimChars s1⟩
    let keep := str ≠ "" ∧ str ≠ "query" ∧ str ≠ "mutation" ∧
      str ≠ "subscription" ∧ str ≠ "fragment" ∧ str ≠ "on"
    { st with
      fields := if keep then st.fields ++ [str] else st.fields,
      buf := [] }

/-- One step of the rune loop of `extractAPIs`. Braces adjust the depth and
flush; at depth 1 the delimiters `(`, space, newline, tab, `{`, `,` flush;
any other depth-1 rune extends the current name; runes at other depths are
ignored. -/
def exStep (st : ExtractSt) (c : Char) : ExtractSt :=
  if c = '{' then exFlush { st with depth := st.depth + 1, inName := false }
  else if c = '}' then exFlush { st with depth := st.depth - 1, inName := false }
  else if st.depth = 1 ∧ (c = '(' ∨ c = ' ' ∨ c = '\n' ∨ c = '\t' ∨ c = '{' ∨ c = ',') then
    exFlush { st with inName := false }
  else if st.depth = 1 then
    if st.inName then { st with buf := st.buf ++ [c] }
    else { st with inName := true, buf := [c] }
  else st

/-- The de-duplication pass at the end of `extractAPIs` (`seen` map plus
in-place append), keeping first occurrences in order. -/
def dedupSeen (seen : List String) : List String → List String
  | [] => []
  | f :: fs => if f ∈ seen then dedupSeen seen fs else f :: dedupSeen (f :: seen) fs

/-- Models `middleware.extractAPIs`: collapse white space, trim, find the
first `{`; a document with no brace is a query with no fields; otherwise
the operation type comes from a lower-cased `mutation` prefix of the head,
and the fields from the depth-1 scanner over the rest, de-duplicated. -/
def extractAPIs (query : String) : String × List String :=
  match splitAtBrace (trimChars (collapseWs query.data)) with
  | none => ("query", [])
  | some (before, rest) =>
    (if "mutation".data.isPrefixOf ((trimChars before).map Char.toLower)
      then "mutation" else "query",
     dedupSeen [] (exFlush (rest.foldl exStep ⟨0, [], false, []⟩)).fields)

/-- Token-bucket configuration (`middleware.RateCfg`): `PerMinute` refill
rate and `Burst` capacity. `rate.NewLimiter` starts a fresh bucket full
(at `Burst` tokens). -/
structure RateCfg where
  perMinute : Int
  burst : Nat
deriving DecidableEq, Repr

/-- Bucket key (`middleware.rateKey`): client identifier and top-level
GraphQL field name. -/
structure RateKeyT where
  client : String
  api : String
deriving DecidableEq, Repr

/-- The mutable `RateLimiter.limiters` map, with current token counts.
`golang.org/x/time/rate` refills buckets continuously; this models the
bucket contents at the instant one request is processed (no refill happens
within a single request). -/
abbrev RLState := List (RateKeyT × Nat)

/-- Current token count of a bucket, if it exists. -/
def bucketTokens (st : RLState) (k : RateKeyT) : Option Nat :=
  (st.find? (fun p => p.1 == k)).map (fun p => p.2)

/-- Replaces the token count of an existing bucket. -/
def setBucket (st : RLState) (k : RateKeyT) (n : Nat) : RLState :=
  st.map (fun p => if p.1 == k then (p.1, n) else p)

/-- Models `rl.limiterFor(k, cfg).Allow()`: the bucket is created full
(`cfg.burst` tokens) if absent, then one token is consumed if available;
an empty bucket denies and is left unchanged. -/
def allowKey (st : RLState) (k : RateKeyT) (cfg : RateCfg) : Bool × RLState :=
  match bucketTokens st k with
  | some n => if n = 0 then (false, st) else (true, setBucket st k (n - 1))
  | none =>
    if cfg.burst = 0 then (false, st ++ [(k, 0)])
    else (true, st ++ [(k, cfg.burst - 1)])

/-- Quota resolution of `GraphQLRateLimit`: the per-API override if
present, else the mutation default for mutation documents, else the query
default. -/
def cfgFor (overrides : List (String × RateCfg)) (defQuery defMutation : RateCfg)
    (opType : String) (f : String) : RateCfg :=
  match (overrides.find? (fun p => p.1 == f)).map (fun p => p.2) with
  | some c => c
  | none => if opType = "mutation" then defMutation else defQuery

/-- The per-field loop of `GraphQLRateLimit`: checks every extracted field
in order, consuming a token when available, and collects the denied field
names in order. -/
def gateLoop (client opType : String) (overrides : List (String × RateCfg))
    (defQuery defMutation : RateCfg) (st : RLState) :
    List String → List String × RLState
  | [] => ([], st)
  | f :: fs =>
    let res := allowKey st ⟨client, f⟩ (cfgFor overrides defQuery defMutation opType f)
    let rest := gateLoop client opType overrides defQuery defMutation res.2 fs
    (if res.1 then rest.1 else f :: rest.1, rest.2)

/-- The structured rejection payload written on denial. -/
structure DenyBody where
  error : String
  deniedAPIs : List String
  retryAdvice : String
deriving DecidableEq, Repr

/-- Outcome of the gating middleware for one request: pass the request
through to the GraphQL handler unmodified, or short-circuit with an HTTP
status and the rejection payload. -/
inductive GateDecision where
  | allowed
  | denied (status : Nat) (body : DenyBody)
deriving DecidableEq, Repr

/-- Models `middleware.GraphQLRateLimit` for one gated (POST) request with
the given `query` document: extract the operation type and fields; an
empty field set passes through unconditionally (fail open); otherwise the
loop runs and any denial short-circuits with HTTP 429 and the structured
body; no denial forwards the request unmodified. -/
def GraphQLRateLimit (defQuery defMutation : RateCfg)
    (overrides : List (String × RateCfg)) (st : RLState)
    (client : String) (query : String) : GateDecision × RLState :=
  if (extractAPIs query).2.isEmpty then (.allowed, st)
  else
    let res := gateLoop client (extractAPIs query).1 overrides defQuery defMutation st
      (extractAPIs query).2
    if res.1.isEmpty then (.allowed, res.2)
    else
      (.denied 429
        ⟨"rate limit exceeded", res.1,
         "retry later or contact server admin for higher limits"⟩, res.2)

/-- Whether the bucket this request would use for field `f` is empty when
the request arrives: an existing bucket with zero tokens, or a bucket
about to be created with zero burst. -/
def emptyBucketFor (st : RLState) (client : String)
    (overrides : List (String × RateCfg)) (defQuery defMutation : RateCfg)
    (opType : String) (f : String) : Bool :=
  match bucketTokens st ⟨client, f⟩ with
  | some n => n = 0
  | none => (cfgFor overrides defQuery defMutation opType f).burst = 0

/-- The public ledger operations of the claim on reachable states, with
the arguments each one takes (timestamps included, delivery oracle fixed
to successful delivery, which does not influence the table). -/
inductive LedgerOp where
  | create (id : String) (init : Option Int)
  | recharge (id : String) (amount : Int) (uid did : String) (now : Nat)
  | batchRecharge (ids : List String) (amount : Int) (uid did : String) (now : Nat)
  | use (id : String) (amount : Int) (uid did : String) (now : Nat)
  | transfer (src dst : String) (amount : Int) (uid did : String) (now : Nat)
  | setExact (id : String) (target : Int) (uid did : String) (now : Nat)
  | touchUsage (id : String) (now : Nat)
  | delete (id : String)
deriving DecidableEq, Repr

/-- Table after one ledger operation (its returned value, notifications
and logs are irrelevant to reachability). -/
def applyOp (s : CoinDB) : LedgerOp → CoinDB
  | .create id init => (CreateAccount s id init).state
  | .recharge id amount uid did now => (Recharge s id amount uid did now (fun _ => true)).state
  | .batchRecharge ids amount uid did now => (BatchRecharge s ids amount uid did now (fun _ => true)).state
  | .use id amount uid did now => (Use s id amount uid did now (fun _ => true)).state
  | .transfer src dst amount uid did now => (Transfer s src dst amount uid did now (fun _ => true)).state
  | .setExact id target uid did now => (SetCoinsExact s id target uid did now (fun _ => true)).state
  | .touchUsage id now => (TouchUsage s id now).state
  | .delete id => (DeleteAccount s id).state

/-- Table after a sequence of ledger operations. -/
def runOps (s : CoinDB) (ops : List LedgerOp) : CoinDB :=
  ops.foldl applyOp s

/-- Operations whose explicit balance arguments are non-negative: the
restriction (forced by the code's missing validation in `CreateAccount`
and `SetCoinsExact`) under which the non-negativity invariant holds. -/
def opSafe : LedgerOp → Bool
  | .create _ init => decide (0 ≤ init.getD 0)
  | .setExact _ target _ _ _ => decide (0 ≤ target)
  | _ => true

/-- Balance of an account as observed through `GetAccount`. -/
def balanceOf (s : CoinDB) (id : String) : Option Int :=
  (GetAccount s id).map (fun a => a.coins)

/-- Well-formedness of the `public.coins` table: ids are unique (the
`PRIMARY KEY` constraint) and every balance is non-negative (the claimed
invariant). -/
def goodDB (s : CoinDB) : Prop :=
  (s.map (fun r => r.id)).Nodup ∧ ∀ r ∈ s, 0 ≤ r.coins

/-! Helper lemmas about the table model. -/

theorem find?_map_comm {α : Type} (F : α → α) (p : α → Bool) (g : α → α) (l : List α)
    (h1 : ∀ a, p (F a) = p a) (h2 : ∀ a, p a = true → F a = g a) :
    (l.map F).find? p = (l.find? p).map g := by
  induction l with
  | nil => rfl
  | cons a t ih =>
    by_cases h : p a = true
    · rw [List.map_cons, List.find?_cons_of_pos _ (by rw [h1, h]),
        List.find?_cons_of_pos _ h, h2 a h]
      rfl
    · rw [List.map_cons, List.find?_cons_of_neg _ (by rw [h1]; exact h),
        List.find?_cons_of_neg _ h, ih]

theorem GetAccount_updateRow_self (s : CoinDB) (id : String) (g : Account → Account)
    (hg : ∀ r, (g r).id = r.id) :
    GetAccount (updateRow s id g) id = (GetAccount s id).map g := by
  refine find?_map_comm _ _ _ _ (fun a => ?_) (fun a ha => ?_)
  · by_cases h : (a.id == id) = true
    · simp only [h, if_true]
      rw [show ((g a).id == id) = (a.id == id) by rw [hg a], h]
    · simp only [h, if_false, Bool.false_eq_true]
  · simp only [ha, if_true]

theorem GetAccount_updateRow_ne (s : CoinDB) (tid id : String) (g : Account → Account)
    (hg : ∀ r, (g r).id = r.id) (hne : id ≠ tid) :
    GetAccount (updateRow s tid g) id = GetAccount s id := by
  have := find?_map_comm (fun r => if r.id == tid then g r else r)
    (fun r => r.id == id) (fun a => a) s
    (fun a => by
      by_cases h : (a.id == tid) = true
      · simp only [h, if_true]
        rw [show ((g a).id == id) = (a.id == id) by rw [hg a]]
      · simp only [h, if_false, Bool.false_eq_true])
    (fun a ha => by
      have hid : a.id = id := beq_iff_eq.mp ha
      have hneq : ¬((a.id == tid) = true) :=
        fun hcontr => hne (hid.symm.trans (beq_iff_eq.mp hcontr))
      show (if a.id == tid then g a else a) = a
      rw [if_neg hneq])
  simpa [updateRow, GetAccount, Option.map_id'] using this

theorem updateRow_of_absent (s : CoinDB) (id : String) (g : Account → Account)
    (h : GetAccount s id = none) : updateRow s id g = s := by
  have hall := List.find?_eq_none.mp h
  unfold updateRow
  rw [List.map_congr_left (fun r hr => by
    rw [if_neg]
    exact hall r hr)]
  exact List.map_id _

theorem find?_append_of_none {α : Type} {p : α → Bool} {l1 l2 : List α}
    (h : l1.find? p = none) : (l1 ++ l2).find? p = l2.find? p := by
  induction l1 with
  | nil => rfl
  | cons a t ih =>
    have hall := List.find?_eq_none.mp h
    have ha : ¬p a = true := hall a (by simp)
    have ht : t.find? p = none := List.find?_eq_none.mpr (fun x hx => hall x (by simp [hx]))
    rw [List.cons_append, List.find?_cons_of_neg _ ha]
    exact ih ht

theorem GetAccount_append_new (s : CoinDB) (id : String) (a : Account)
    (h : GetAccount s id = none) (ha : a.id = id) :
    GetAccount (s ++ [a]) id = some a := by
  unfold GetAccount at h ⊢
  rw [find?_append_of_none h, List.find?_cons_of_pos _ (by simp [ha])]

theorem row_unique_of_nodup_ids {s : CoinDB}
    (hn : (s.map (fun r => r.id)).Nodup) {a b : Account}
    (ha : a ∈ s) (hb : b ∈ s) (hid : a.id = b.id) : a = b :=
  List.inj_on_of_nodup_map hn ha hb hid

theorem updateRow_map_ids (s : CoinDB) (id : String) (g : Account → Account)
    (hg : ∀ r, (g r).id = r.id) :
    (updateRow s id g).map (fun r => r.id) = s.map (fun r => r.id) := by
  unfold updateRow
  rw [List.map_map]
  exact List.map_congr_left (fun r _ => by
    show (if r.id == id then g r else r).id = r.id
    by_cases h : (r.id == id) = true
    · rw [if_pos h]
      exact hg r
    · rw [if_neg h])

theorem hasSub_of_pfx {h n : List Char} (hp : n <+: h) : hasSub h n = true := by
  cases h with
  | nil =>
    have : n = [] := List.prefix_nil.mp hp
    simp [hasSub, this]
  | cons c t =>
    unfold hasSub
    rw [Bool.or_eq_true]
    exact Or.inl ( List.isPrefixOf_iff_prefix.mpr hp)

theorem hasSub_cons {t n : List Char} (c : Char) (h : hasSub t n = true) :
    hasSub (c :: t) n = true := by
  unfold hasSub
  rw [Bool.or_eq_true]
  exact Or.inr h

theorem isInsufficient_insufficient (a r : Int) :
    isInsufficient (.insufficient a r) = true := by
  unfold isInsufficient errText
  simp only [String.data_append, List.append_assoc]
  apply hasSub_cons
  apply hasSub_cons
  apply hasSub_cons
  apply hasSub_cons
  apply hasSub_cons
  exact hasSub_of_pfx (List.prefix_append _ _)

theorem dedupSeen_nodup_and_disjoint (l : List String) :
    ∀ seen, (dedupSeen seen l).Nodup ∧ ∀ x ∈ dedupSeen seen l, x ∉ seen := by
  induction l with
  | nil => intro seen; exact ⟨List.nodup_nil, by simp [dedupSeen]⟩
  | cons f fs ih =>
    intro seen
    by_cases h : f ∈ seen
    · simpa [dedupSeen, h] using ih seen
    · have hstep := ih (f :: seen)
      refine ⟨?_, ?_⟩
      · simp only [dedupSeen, if_neg h, List.nodup_cons]
        exact ⟨fun hmem => (hstep.2 f hmem) (by simp), hstep.1⟩
      · intro x hx
        simp only [dedupSeen, if_neg h, List.mem_cons] at hx
        rcases hx with rfl | hx
        · exact h
        · exact fun hxs => (hstep.2 x hx) (by simp [hxs])

theorem extractAPIs_fields_nodup (q : String) : (extractAPIs q).2.Nodup := by
  unfold extractAPIs
  cases hsplit : splitAtBrace (trimChars (collapseWs q.data)) with
  | none => exact List.nodup_nil
  | some p =>
    obtain ⟨before, rest⟩ := p
    exact (dedupSeen_nodup_and_disjoint _ []).1

theorem CreateAccount_absent (s : CoinDB) (id : String) (coins : Option Int)
    (h : GetAccount s id = none) :
    CreateAccount s id coins =
      { result := .ok ⟨id, coins.getD 0, none, none⟩,
        state := s ++ [⟨id, coins.getD 0, none, none⟩], notifs := [], logs := [] } := by
  have hread : GetAccount (s ++ [⟨id, coins.getD 0, none, none⟩]) id =
      some ⟨id, coins.getD 0, none, none⟩ :=
    GetAccount_append_new s id _ h rfl
  simp only [CreateAccount, h, hread]

theorem CreateAccount_present (s : CoinDB) (id : String) (coins : Option Int)
    (a : Account) (h : GetAccount s id = some a) :
    CreateAccount s id coins = { result := .ok a, state := s, notifs := [], logs := [] } := by
  simp only [CreateAccount, h]

theorem effLimit_of_inrange (l : Int) (h1 : 0 < l) (h2 : l ≤ 200) : effLimit l = l := by
  unfold effLimit
  rw [if_neg]
  push_neg
  omega

theorem effOffset_of_nonneg (o : Int) (h : 0 ≤ o) : effOffset o = o := by
  unfold effOffset
  rw [if_neg]
  omega

theorem effLimit_bounds (l : Int) : 0 < effLimit l ∧ effLimit l ≤ 200 := by
  unfold effLimit
  split <;> omega

theorem effOffset_nonneg (o : Int) : 0 ≤ effOffset o := by
  unfold effOffset
  split <;> omega

/-- Claim C5 counterexample: on the document `mutation{ a(x:1){y} b:c }`
the extracted field set is not `{a, c}`: the spurious token `1)` — a
fragment of the argument list `(x:1)` — also appears (the closing
parenthesis is never a delimiter, so `x:1)` is flushed and alias-stripped
to `1)` when the sub-selection brace is reached). -/
theorem extractAPIs_spec_counterexample :
    "1)" ∈ (extractAPIs "mutation{ a(x:1){y} b:c }").2 ∧
    "1)" ≠ "a" ∧ "1)" ≠ "c" := by
  decide

/-- Claim C5 (amended): the Admission Gateway's field extraction on
`mutation{ a(x:1){y} b:c }` yields operation type `mutation` and the field
list `[a, 1), c]`: the alias `b` resolves to `c`, the depth-2 field `y` is
excluded, and no fragment of the argument list appears except the spurious
remnant `1)`. -/
theorem extractAPIs_on_spec_document :
    extractAPIs "mutation{ a(x:1){y} b:c }" = ("mutation", ["a", "1)", "c"]) := by
  decide

/-- Claim C6: for every id and every pair of initial balances, calling
`CreateAccount(id, b1)` on a store without that id and then
`CreateAccount(id, b2)` leaves the account with balance `b1` (the second
call changes nothing) and both calls return the current row. -/
theorem createAccount_idempotent (s : CoinDB) (id : String) (b1 b2 : Int)
    (h : GetAccount s id = none) :
    (CreateAccount s id (some b1)).result = .ok ⟨id, b1, none, none⟩ ∧
    (CreateAccount (CreateAccount s id (some b1)).state id (some b2)).result =
      .ok ⟨id, b1, none, none⟩ ∧
    GetAccount (CreateAccount (CreateAccount s id (some b1)).state id (some b2)).state id =
      some ⟨id, b1, none, none⟩ ∧
    (CreateAccount (CreateAccount s id (some b1)).state id (some b2)).state =
      (CreateAccount s id (some b1)).state := by
  have e1 := CreateAccount_absent s id (some b1) h
  have hread : GetAccount (s ++ [⟨id, b1, none, none⟩]) id = some ⟨id, b1, none, none⟩ :=
    GetAccount_append_new s id _ h rfl
  have hstate1 : (CreateAccount s id (some b1)).state = s ++ [⟨id, b1, none, none⟩] := by
    rw [e1]
    rfl
  have e2 : CreateAccount (CreateAccount s id (some b1)).state id (some b2) =
      { result := .ok ⟨id, b1, none, none⟩,
        state := s ++ [⟨id, b1, none, none⟩], notifs := [], logs := [] } := by
    rw [hstate1]
    exact CreateAccount_present _ _ _ _ hread
  exact ⟨by rw [e1]; rfl, by rw [e2], by rw [e2]; exact hread, by rw [e2, e1]; rfl⟩

/-- Claim C6 witness: concrete double creation of `u` with balances 1 then
2 keeps balance 1, with both calls returning the row. -/
theorem createAccount_idempotent_witness :
    GetAccount ([] : CoinDB) "u" = none ∧
    ((CreateAccount [] "u" (some 1)).result = .ok ⟨"u", 1, none, none⟩ ∧
     (CreateAccount (CreateAccount [] "u" (some 1)).state "u" (some 2)).result =
       .ok ⟨"u", 1, none, none⟩ ∧
     GetAccount (CreateAccount (CreateAccount [] "u" (some 1)).state "u" (some 2)).state "u" =
       some ⟨"u", 1, none, none⟩ ∧
     (CreateAccount (CreateAccount [] "u" (some 1)).state "u" (some 2)).state =
       (CreateAccount [] "u" (some 1)).state) :=
  ⟨rfl, createAccount_idempotent [] "u" 1 2 rfl⟩

/-- Claim C9: `ListAccounts` output is ordered by id ascending, the
effective limit lies in `(0, 200]` (with 50 substituted for any
out-of-range limit) and the effective offset is non-negative, and the
listing for any input equals the listing for the clamped values. -/
theorem listAccounts_clamping (s : CoinDB) (limit offset : Int) :
    List.Sorted (fun a b : Account => a.id ≤ b.id) (ListAccounts s limit offset) ∧
    0 < effLimit limit ∧ effLimit limit ≤ 200 ∧ 0 ≤ effOffset offset ∧
    ((limit ≤ 0 ∨ 200 < limit) → effLimit limit = 50) ∧
    ListAccounts s limit offset = ListAccounts s (effLimit limit) (effOffset offset) := by
  refine ⟨?_, (effLimit_bounds limit).1, (effLimit_bounds limit).2, effOffset_nonneg offset,
    ?_, ?_⟩
  · show List.Pairwise _ (((sortById s).drop (effOffset offset).toNat).take (effLimit limit).toNat)
    exact List.Pairwise.sublist
      ((List.take_sublist _ _).trans (List.drop_sublist _ _))
      (List.sorted_insertionSort _ s)
  · intro h
    unfold effLimit
    rw [if_pos h]
  · unfold ListAccounts
    rw [effLimit_of_inrange _ (effLimit_bounds limit).1 (effLimit_bounds limit).2,
      effOffset_of_nonneg _ (effOffset_nonneg offset)]

/-- Claim C9 witness: the clamped-equality conclusion at the out-of-range
input `limit = 300, offset = -4` on a concrete store. -/
theorem listAccounts_clamping_witness :
    effLimit 300 = 50 ∧
    ListAccounts [⟨"b", 1, none, none⟩, ⟨"a", 2, none, none⟩] 300 (-4) =
      ListAccounts [⟨"b", 1, none, none⟩, ⟨"a", 2, none, none⟩] (effLimit 300) (effOffset (-4)) :=
  ⟨(listAccounts_clamping [⟨"b", 1, none, none⟩, ⟨"a", 2, none, none⟩] 300 (-4)).2.2.2.2.1
      (by norm_num),
   (listAccounts_clamping [⟨"b", 1, none, none⟩, ⟨"a", 2, none, none⟩] 300 (-4)).2.2.2.2.2⟩

/-- Claim C10: a `BatchRecharge` that passes validation returns the number
of table rows whose id occurs in `coinIDs`, yet emits exactly one
notification per element of `coinIDs`, existing or not. -/
theorem batchRecharge_count_vs_notifs (s : CoinDB) (coinIDs : List String)
    (amount : Int) (uid did : String) (now : Nat) (d : Notif → Bool) (u : String)
    (hamt : 0 < amount) (htrim : goTrim uid ≠ "") (hu : canonicalUUID uid = some u) :
    (BatchRecharge s coinIDs amount uid did now d).result =
      .ok ((rowsMatching s (fun r => coinIDs.contains r.id) : Nat) : Int) ∧
    (BatchRecharge s coinIDs amount uid did now d).notifs.length = coinIDs.length := by
  have h1 : ¬(amount ≤ 0) := not_le.mpr hamt
  constructor
  · simp only [BatchRecharge, if_neg h1, if_neg htrim, hu]
  · simp only [BatchRecharge, if_neg h1, if_neg htrim, hu]
    exact List.length_map _ _

/-- Claim C10 witness: ids `[a, b]` against a store holding only `a` —
one row affected, two notifications. -/
theorem batchRecharge_count_vs_notifs_witness :
    (BatchRecharge [⟨"a", 0, none, none⟩] ["a", "b"] 1
      "00000000-0000-0000-0000-000000000000" "" 2 (fun _ => true)).result = .ok 1 ∧
    (BatchRecharge [⟨"a", 0, none, none⟩] ["a", "b"] 1
      "00000000-0000-0000-0000-000000000000" "" 2 (fun _ => true)).notifs.length = 2 :=
  batchRecharge_count_vs_notifs [⟨"a", 0, none, none⟩] ["a", "b"] 1
    "00000000-0000-0000-0000-000000000000" "" 2 (fun _ => true)
    "00000000-0000-0000-0000-000000000000" (by decide) (by decide) (by decide)

theorem TouchUsage_absent (s : CoinDB) (id : String) (now : Nat)
    (h : GetAccount s id = none) :
    TouchUsage s id now = { result := .ok none, state := s, notifs := [], logs := [] } := by
  have hupd := updateRow_of_absent s id (fun r => { r with lastUsageDate := some now }) h
  simp only [TouchUsage, hupd, h]

theorem Recharge_absent (s : CoinDB) (id : String) (amount : Int) (uid did : String)
    (now : Nat) (d : Notif → Bool) (u : String) (h : GetAccount s id = none)
    (hamt : 0 < amount) (htrim : goTrim uid ≠ "") (hu : canonicalUUID uid = some u) :
    Recharge s id amount uid did now d =
      { result := .err .nilDeref, state := s,
        notifs := [⟨u, id, if goTrim did = "" then rechargeDataID id now else did, amount, now⟩],
        logs := notifyRun d
          ⟨u, id, if goTrim did = "" then rechargeDataID id now else did, amount, now⟩ } := by
  have hupd := updateRow_of_absent s id
    (fun r => { r with coins := r.coins + amount, lastRechargeDate := some now }) h
  simp only [Recharge, if_neg (not_le.mpr hamt), if_neg htrim, hu, hupd, h]

theorem SetCoinsExact_absent (s : CoinDB) (id : String) (target : Int) (uid did : String)
    (now : Nat) (d : Notif → Bool) (u : String) (h : GetAccount s id = none)
    (htrim : goTrim uid ≠ "") (hu : canonicalUUID uid = some u) :
    SetCoinsExact s id target uid did now d =
      { result := .err .nilDeref, state := s, notifs := [], logs := [] } := by
  have hupd := updateRow_of_absent s id (fun r => { r with coins := target }) h
  simp only [SetCoinsExact, if_neg htrim, hu, hupd, h]

/-- Claim C4 counterexample: `TouchUsage` on a missing id returns success
with a null account — not an error detected via the zero-row update. -/
theorem missingId_touchUsage_counterexample :
    (TouchUsage [] "x" 0).result = .ok none ∧ (TouchUsage [] "x" 0).state = [] := by
  decide

/-- Claim C4 (amended): with a missing id, none of the three update-by-id
operations reports an error derived from the zero-row update: `TouchUsage`
returns success with a null account; `Recharge` and `SetCoinsExact` end in
a nil-pointer dereference panic at the post-readback logging (after
`Recharge` has already emitted its notification); the table is unchanged
in all three cases. -/
theorem missingId_behavior (s : CoinDB) (id : String) (amount target : Int)
    (uid did : String) (now : Nat) (d : Notif → Bool) (u : String)
    (habs : GetAccount s id = none) (hamt : 0 < amount)
    (htrim : goTrim uid ≠ "") (hu : canonicalUUID uid = some u) :
    (TouchUsage s id now).result = .ok none ∧
    (TouchUsage s id now).state = s ∧
    (Recharge s id amount uid did now d).result = .err .nilDeref ∧
    (Recharge s id amount uid did now d).state = s ∧
    (Recharge s id amount uid did now d).notifs.length = 1 ∧
    (SetCoinsExact s id target uid did now d).result = .err .nilDeref ∧
    (SetCoinsExact s id target uid did now d).state = s := by
  have ht := TouchUsage_absent s id now habs
  have hr := Recharge_absent s id amount uid did now d u habs hamt htrim hu
  have hs := SetCoinsExact_absent s id target uid did now d u habs htrim hu
  exact ⟨by rw [ht], by rw [ht], by rw [hr], by rw [hr], by rw [hr]; rfl,
    by rw [hs], by rw [hs]⟩

/-- Claim C4 witness: the amended behavior at the empty table with id `x`,
recharge amount 1, set-exact target 3 and a concrete UUID actor. -/
theorem missingId_behavior_witness :
    (TouchUsage [] "x" 5).result = .ok none ∧
    (TouchUsage [] "x" 5).state = [] ∧
    (Recharge [] "x" 1 "00000000-0000-0000-0000-000000000000" "" 5 (fun _ => true)).result =
      .err .nilDeref ∧
    (Recharge [] "x" 1 "00000000-0000-0000-0000-000000000000" "" 5 (fun _ => true)).state = [] ∧
    (Recharge [] "x" 1 "00000000-0000-0000-0000-000000000000" "" 5 (fun _ => true)).notifs.length = 1 ∧
    (SetCoinsExact [] "x" 3 "00000000-0000-0000-0000-000000000000" "" 5 (fun _ => true)).result =
      .err .nilDeref ∧
    (SetCoinsExact [] "x" 3 "00000000-0000-0000-0000-000000000000" "" 5 (fun _ => true)).state = [] :=
  missingId_behavior [] "x" 1 3 "00000000-0000-0000-0000-000000000000" "" 5 (fun _ => true)
    "00000000-0000-0000-0000-000000000000" rfl (by decide) (by decide) (by decide)

theorem Use_insufficient_case (s : CoinDB) (coinID : String) (amount : Int)
    (uid did : String) (now : Nat) (d : Notif → Bool) (u : String) (cur : Account)
    (hamt : 0 < amount) (htrim : goTrim uid ≠ "") (hu : canonicalUUID uid = some u)
    (hacc : GetAccount s coinID = some cur) (hlt : cur.coins < amount) :
    Use s coinID amount uid did now d =
      { result := .err (.insufficient cur.coins amount), state := s, notifs := [], logs := [] } := by
  simp only [Use, if_neg (not_le.mpr hamt), if_neg htrim, hu, hacc, if_pos hlt]

/-- Claim C3 (amended): for every existing account and every positive
amount greater than its balance, the `Deplete` RPC (which wraps
`Store.Use`) fails with `FailedPrecondition` carrying the
`insufficient balance` message, and the table — balances and timestamps —
is unchanged, with no notification emitted. -/
theorem use_insufficient_rejected (s : CoinDB) (id : String) (amount : Int)
    (uid did : String) (now : Nat) (d : Notif → Bool) (u : String) (cur : Account)
    (hid : goTrim id ≠ "") (hacc : GetAccount s id = some cur) (hamt : 0 < amount)
    (hlt : cur.coins < amount) (htrim : goTrim uid ≠ "") (hu : canonicalUUID uid = some u) :
    (Deplete s id amount uid did now d).result =
      .err .failedPrecondition (errText (.insufficient cur.coins amount)) ∧
    (Deplete s id amount uid did now d).state = s ∧
    (Deplete s id amount uid did now d).notifs = [] := by
  have huse := Use_insufficient_case s id amount uid did now d u cur hamt htrim hu hacc hlt
  have hins := isInsufficient_insufficient cur.coins amount
  simp only [Deplete, if_neg hid, if_neg (not_le.mpr hamt), if_neg htrim, huse, hins, if_true]
  exact ⟨trivial, trivial, trivial⟩

/-- Claim C3 witness: depleting 7 from account `x` holding 5 yields
`FailedPrecondition` with the insufficient-balance message and leaves the
table unchanged. -/
theorem use_insufficient_rejected_witness :
    (Deplete [⟨"x", 5, none, none⟩] "x" 7 "00000000-0000-0000-0000-000000000000" "" 1
      (fun _ => true)).result =
      .err .failedPrecondition "use: insufficient balance (have 5, need 7)" ∧
    (Deplete [⟨"x", 5, none, none⟩] "x" 7 "00000000-0000-0000-0000-000000000000" "" 1
      (fun _ => true)).state = [⟨"x", 5, none, none⟩] ∧
    (Deplete [⟨"x", 5, none, none⟩] "x" 7 "00000000-0000-0000-0000-000000000000" "" 1
      (fun _ => true)).notifs = [] :=
  use_insufficient_rejected [⟨"x", 5, none, none⟩] "x" 7
    "00000000-0000-0000-0000-000000000000" "" 1 (fun _ => true)
    "00000000-0000-0000-0000-000000000000" ⟨"x", 5, none, none⟩
    (by decide) rfl (by decide) (by decide) (by decide) (by decide)

/-- Claim C3 counterexample: a negative balance is reachable (`SetExact`
does not validate its target), and at such an account an amount greater
than the balance but not positive is rejected with `InvalidArgument`
("amount must be > 0"), not with `FailedPrecondition`
("insufficient balance"). -/
theorem use_insufficient_counterexample :
    runOps [] [.create "x" none,
      .setExact "x" (-1) "00000000-0000-0000-0000-000000000000" "" 0] =
      [⟨"x", -1, none, none⟩] ∧
    ((-1 : Int) < 0) ∧
    (Deplete [⟨"x", -1, none, none⟩] "x" 0 "00000000-0000-0000-0000-000000000000" "" 1
      (fun _ => true)).result = .err .invalidArgument "amount must be > 0" ∧
    (∀ m, (Deplete [⟨"x", -1, none, none⟩] "x" 0 "00000000-0000-0000-0000-000000000000" "" 1
      (fun _ => true)).result ≠ .err .failedPrecondition m) := by
  refine ⟨by decide, by decide, by decide, ?_⟩
  intro m hm
  have hres : (Deplete [⟨"x", -1, none, none⟩] "x" 0
      "00000000-0000-0000-0000-000000000000" "" 1 (fun _ => true)).result =
      .err .invalidArgument "amount must be > 0" := by decide
  rw [hres] at hm
  exact absurd (GrpcResult.err.inj hm).1 (by decide)

/-- Claim C2 counterexample: transferring 3 from `X` (balance 5) to the
nonexistent account `Y` succeeds, debiting `X` to 2 while `Y` is never
credited (the credit `UPDATE` matches zero rows and the transaction still
commits) — neither of the claim's two allowed outcomes. -/
theorem transfer_atomicity_counterexample :
    (∃ p, (Transfer [⟨"X", 5, none, none⟩] "X" "Y" 3
      "00000000-0000-0000-0000-000000000000" "" 7 (fun _ => true)).result = .ok p) ∧
    ¬((∃ bX bY, balanceOf [⟨"X", 5, none, none⟩] "X" = some bX ∧
        balanceOf [⟨"X", 5, none, none⟩] "Y" = some bY ∧
        balanceOf (Transfer [⟨"X", 5, none, none⟩] "X" "Y" 3
          "00000000-0000-0000-0000-000000000000" "" 7 (fun _ => true)).state "X" =
          some (bX - 3) ∧
        balanceOf (Transfer [⟨"X", 5, none, none⟩] "X" "Y" 3
          "00000000-0000-0000-0000-000000000000" "" 7 (fun _ => true)).state "Y" =
          some (bY + 3)) ∨
      (balanceOf (Transfer [⟨"X", 5, none, none⟩] "X" "Y" 3
          "00000000-0000-0000-0000-000000000000" "" 7 (fun _ => true)).state "X" =
        balanceOf [⟨"X", 5, none, none⟩] "X" ∧
       balanceOf (Transfer [⟨"X", 5, none, none⟩] "X" "Y" 3
          "00000000-0000-0000-0000-000000000000" "" 7 (fun _ => true)).state "Y" =
        balanceOf [⟨"X", 5, none, none⟩] "Y")) := by
  constructor
  · exact ⟨(some ⟨"X", 2, none, some 7⟩, none), by decide⟩
  · intro hcontr
    rcases hcontr with ⟨bX, bY, _, hY, _, _⟩ | ⟨hX, _⟩
    · have hnone : balanceOf [⟨"X", 5, none, none⟩] "Y" = none := by decide
      rw [hnone] at hY
      exact Option.noConfusion hY
    · have h2 : balanceOf (Transfer [⟨"X", 5, none, none⟩] "X" "Y" 3
          "00000000-0000-0000-0000-000000000000" "" 7 (fun _ => true)).state "X" = some 2 := by
        decide
      have h5 : balanceOf [⟨"X", 5, none, none⟩] "X" = some 5 := by decide
      rw [h2, h5] at hX
      exact absurd hX (by decide)

theorem balanceOf_updateRow_self (s : CoinDB) (id : String) (g : Account → Account)
    (hg : ∀ r, (g r).id = r.id) :
    balanceOf (updateRow s id g) id = (GetAccount s id).map (fun a => (g a).coins) := by
  unfold balanceOf
  rw [GetAccount_updateRow_self s id g hg, Option.map_map]
  rfl

theorem balanceOf_updateRow_ne (s : CoinDB) (tid id : String) (g : Account → Account)
    (hg : ∀ r, (g r).id = r.id) (hne : id ≠ tid) :
    balanceOf (updateRow s tid g) id = balanceOf s id := by
  unfold balanceOf
  rw [GetAccount_updateRow_ne s tid id g hg hne]

/-- Claim C2 (amended): provided the destination account exists, a
transfer of amount `a` from `X` to `Y` either leaves the balances at
`(balanceX − a, balanceY + a)` or leaves both balances unchanged,
whether or not the source exists or is sufficiently funded. -/
theorem transfer_atomic (s : CoinDB) (fromID toID : String) (amount : Int)
    (uid did : String) (now : Nat) (d : Notif → Bool)
    (hto : (GetAccount s toID).isSome) :
    (∃ bX bY, balanceOf s fromID = some bX ∧ balanceOf s toID = some bY ∧
       balanceOf (Transfer s fromID toID amount uid did now d).state fromID =
         some (bX - amount) ∧
       balanceOf (Transfer s fromID toID amount uid did now d).state toID =
         some (bY + amount)) ∨
    (balanceOf (Transfer s fromID toID amount uid did now d).state fromID =
       balanceOf s fromID ∧
     balanceOf (Transfer s fromID toID amount uid did now d).state toID =
       balanceOf s toID) := by
  by_cases h1 : amount ≤ 0
  · right
    have hst : (Transfer s fromID toID amount uid did now d).state = s := by
      simp only [Transfer, if_pos h1]
    rw [hst]
    exact ⟨rfl, rfl⟩
  by_cases h2 : goTrim uid = ""
  · right
    have hst : (Transfer s fromID toID amount uid did now d).state = s := by
      simp only [Transfer, if_neg h1, if_pos h2]
    rw [hst]
    exact ⟨rfl, rfl⟩
  cases hu : canonicalUUID uid with
  | none =>
    right
    have hst : (Transfer s fromID toID amount uid did now d).state = s := by
      simp only [Transfer, if_neg h1, if_neg h2, hu]
    rw [hst]
    exact ⟨rfl, rfl⟩
  | some u =>
    cases hf : GetAccount s fromID with
    | none =>
      right
      have hst : (Transfer s fromID toID amount uid did now d).state = s := by
        simp only [Transfer, if_neg h1, if_neg h2, hu, hf]
      rw [hst]
      exact ⟨rfl, rfl⟩
    | some f =>
      by_cases h3 : f.coins < amount
      · right
        have hst : (Transfer s fromID toID amount uid did now d).state = s := by
          simp only [Transfer, if_neg h1, if_neg h2, hu, hf, if_pos h3]
        rw [hst]
        exact ⟨rfl, rfl⟩
      · have hst : (Transfer s fromID toID amount uid did now d).state =
            updateRow (updateRow s fromID
              (fun r => { r with coins := r.coins - amount, lastUsageDate := some now }))
              toID
              (fun r => { r with coins := r.coins + amount, lastRechargeDate := some now }) := by
          simp only [Transfer, if_neg h1, if_neg h2, hu, hf, if_neg h3]
        have hb1 : balanceOf (updateRow s fromID
            (fun r => { r with coins := r.coins - amount, lastUsageDate := some now })) fromID =
            some (f.coins - amount) := by
          rw [balanceOf_updateRow_self s fromID
            (fun r => { r with coins := r.coins - amount, lastUsageDate := some now })
            (fun _ => rfl), hf]
          rfl
        by_cases heq : fromID = toID
        · right
          subst heq
          have hb2 : balanceOf (Transfer s fromID fromID amount uid did now d).state fromID =
              some (f.coins - amount + amount) := by
            rw [hst, balanceOf_updateRow_self _ fromID
              (fun r => { r with coins := r.coins + amount, lastRechargeDate := some now })
              (fun _ => rfl),
              GetAccount_updateRow_self s fromID
              (fun r => { r with coins := r.coins - amount, lastUsageDate := some now })
              (fun _ => rfl), hf]
            rfl
          have hbal : balanceOf s fromID = some f.coins := by
            unfold balanceOf
            rw [hf]
            rfl
          have hfix : f.coins - amount + amount = f.coins := by omega
          rw [hb2, hbal, hfix]
          exact ⟨rfl, rfl⟩
        · left
          obtain ⟨t0, ht0⟩ := Option.isSome_iff_exists.mp hto
          have hne2 : toID ≠ fromID := fun hh => heq hh.symm
          refine ⟨f.coins, t0.coins, ?_, ?_, ?_, ?_⟩
          · unfold balanceOf
            rw [hf]
            rfl
          · unfold balanceOf
            rw [ht0]
            rfl
          · rw [hst, balanceOf_updateRow_ne _ toID fromID
              (fun r => { r with coins := r.coins + amount, lastRechargeDate := some now })
              (fun _ => rfl) heq]
            exact hb1
          · rw [hst, balanceOf_updateRow_self _ toID
              (fun r => { r with coins := r.coins + amount, lastRechargeDate := some now })
              (fun _ => rfl),
              GetAccount_updateRow_ne s fromID toID
              (fun r => { r with coins := r.coins - amount, lastUsageDate := some now })
              (fun _ => rfl) hne2, ht0]
            rfl

/-- Claim C2 witness: the amended atomicity at a concrete two-account
store — transferring 3 from `X` (5 coins) to the existing `Y` (1 coin). -/
theorem transfer_atomic_witness :
    (∃ bX bY, balanceOf [⟨"X", 5, none, none⟩, ⟨"Y", 1, none, none⟩] "X" = some bX ∧
       balanceOf [⟨"X", 5, none, none⟩, ⟨"Y", 1, none, none⟩] "Y" = some bY ∧
       balanceOf (Transfer [⟨"X", 5, none, none⟩, ⟨"Y", 1, none, none⟩] "X" "Y" 3
         "00000000-0000-0000-0000-000000000000" "" 7 (fun _ => true)).state "X" =
         some (bX - 3) ∧
       balanceOf (Transfer [⟨"X", 5, none, none⟩, ⟨"Y", 1, none, none⟩] "X" "Y" 3
         "00000000-0000-0000-0000-000000000000" "" 7 (fun _ => true)).state "Y" =
         some (bY + 3)) ∨
    (balanceOf (Transfer [⟨"X", 5, none, none⟩, ⟨"Y", 1, none, none⟩] "X" "Y" 3
       "00000000-0000-0000-0000-000000000000" "" 7 (fun _ => true)).state "X" =
       balanceOf [⟨"X", 5, none, none⟩, ⟨"Y", 1, none, none⟩] "X" ∧
     balanceOf (Transfer [⟨"X", 5, none, none⟩, ⟨"Y", 1, none, none⟩] "X" "Y" 3
       "00000000-0000-0000-0000-000000000000" "" 7 (fun _ => true)).state "Y" =
       balanceOf [⟨"X", 5, none, none⟩, ⟨"Y", 1, none, none⟩] "Y") :=
  transfer_atomic [⟨"X", 5, none, none⟩, ⟨"Y", 1, none, none⟩] "X" "Y" 3
    "00000000-0000-0000-0000-000000000000" "" 7 (fun _ => true) (by decide)

/-- Claim C8: for every balance-changing operation (`Recharge`,
`BatchRecharge`, `Use`, `Transfer`, `SetCoinsExact`), the returned result,
the committed table and the emitted notifications are identical whatever
the notifier's delivery outcomes: a failed post-commit notification is
only logged — it never rolls back the mutation or fails the operation. -/
theorem notifier_failure_ignored (s : CoinDB) (id : String) (ids : List String)
    (src dst : String) (amount target : Int) (uid did : String) (now : Nat)
    (d1 d2 : Notif → Bool) :
    ((Recharge s id amount uid did now d1).result = (Recharge s id amount uid did now d2).result ∧
     (Recharge s id amount uid did now d1).state = (Recharge s id amount uid did now d2).state ∧
     (Recharge s id amount uid did now d1).notifs = (Recharge s id amount uid did now d2).notifs) ∧
    ((BatchRecharge s ids amount uid did now d1).result =
       (BatchRecharge s ids amount uid did now d2).result ∧
     (BatchRecharge s ids amount uid did now d1).state =
       (BatchRecharge s ids amount uid did now d2).state ∧
     (BatchRecharge s ids amount uid did now d1).notifs =
       (BatchRecharge s ids amount uid did now d2).notifs) ∧
    ((Use s id amount uid did now d1).result = (Use s id amount uid did now d2).result ∧
     (Use s id amount uid did now d1).state = (Use s id amount uid did now d2).state ∧
     (Use s id amount uid did now d1).notifs = (Use s id amount uid did now d2).notifs) ∧
    ((Transfer s src dst amount uid did now d1).result =
       (Transfer s src dst amount uid did now d2).result ∧
     (Transfer s src dst amount uid did now d1).state =
       (Transfer s src dst amount uid did now d2).state ∧
     (Transfer s src dst amount uid did now d1).notifs =
       (Transfer s src dst amount uid did now d2).notifs) ∧
    ((SetCoinsExact s id target uid did now d1).result =
       (SetCoinsExact s id target uid did now d2).result ∧
     (SetCoinsExact s id target uid did now d1).state =
       (SetCoinsExact s id target uid did now d2).state ∧
     (SetCoinsExact s id target uid did now d1).notifs =
       (SetCoinsExact s id target uid did now d2).notifs) := by
  refine ⟨⟨?_, ?_, ?_⟩, ⟨?_, ?_, ?_⟩, ⟨?_, ?_, ?_⟩, ⟨?_, ?_, ?_⟩, ⟨?_, ?_, ?_⟩⟩ <;>
  · first
    | (simp only [Recharge]
       repeat' split
       all_goals rfl)
    | (simp only [BatchRecharge]
       repeat' split
       all_goals rfl)
    | (simp only [Use]
       repeat' split
       all_goals rfl)
    | (simp only [Transfer]
       repeat' split
       all_goals rfl)
    | (simp only [SetCoinsExact]
       repeat' split
       all_goals rfl)

theorem map_ids_of_id_pres (s : CoinDB) (F : Account → Account)
    (hF : ∀ r, (F r).id = r.id) :
    (s.map F).map (fun r => r.id) = s.map (fun r => r.id) := by
  rw [List.map_map]
  exact List.map_congr_left (fun r _ => hF r)

theorem goodDB_map_of_nonneg (s : CoinDB) (F : Account → Account)
    (hF : ∀ r, (F r).id = r.id) (h : goodDB s)
    (hcoins : ∀ r ∈ s, 0 ≤ r.coins → 0 ≤ (F r).coins) :
    goodDB (s.map F) := by
  refine ⟨?_, ?_⟩
  · rw [map_ids_of_id_pres s F hF]
    exact h.1
  · intro r' hr'
    obtain ⟨r, hr, hEq⟩ := List.mem_map.mp hr'
    rw [← hEq]
    exact hcoins r hr (h.2 r hr)

theorem goodDB_filter (s : CoinDB) (p : Account → Bool) (h : goodDB s) :
    goodDB (s.filter p) := by
  refine ⟨?_, ?_⟩
  · exact List.Pairwise.sublist (List.Sublist.map _ (List.filter_sublist s)) h.1
  · intro r hr
    exact h.2 r (List.mem_of_mem_filter hr)

theorem Recharge_state_cases (s : CoinDB) (id : String) (amount : Int)
    (uid did : String) (now : Nat) (d : Notif → Bool) :
    (Recharge s id amount uid did now d).state = s ∨
    (0 < amount ∧ (Recharge s id amount uid did now d).state =
      updateRow s id (fun r => { r with coins := r.coins + amount, lastRechargeDate := some now })) := by
  by_cases h1 : amount ≤ 0
  · left
    simp only [Recharge, if_pos h1]
  by_cases h2 : goTrim uid = ""
  · left
    simp only [Recharge, if_neg h1, if_pos h2]
  cases hu : canonicalUUID uid with
  | none =>
    left
    simp only [Recharge, if_neg h1, if_neg h2, hu]
  | some u =>
    right
    refine ⟨not_le.mp h1, ?_⟩
    simp only [Recharge, if_neg h1, if_neg h2, hu]
    cases hget : GetAccount (updateRow s id
        (fun r => { r with coins := r.coins + amount, lastRechargeDate := some now })) id <;>
      simp only [hget]

theorem BatchRecharge_state_cases (s : CoinDB) (ids : List String) (amount : Int)
    (uid did : String) (now : Nat) (d : Notif → Bool) :
    (BatchRecharge s ids amount uid did now d).state = s ∨
    (0 < amount ∧ (BatchRecharge s ids amount uid did now d).state =
      s.map (fun r => if ids.contains r.id then
        { r with coins := r.coins + amount, lastRechargeDate := some now } else r)) := by
  by_cases h1 : amount ≤ 0
  · left
    simp only [BatchRecharge, if_pos h1]
  by_cases h2 : goTrim uid = ""
  · left
    simp only [BatchRecharge, if_neg h1, if_pos h2]
  cases hu : canonicalUUID uid with
  | none =>
    left
    simp only [BatchRecharge, if_neg h1, if_neg h2, hu]
  | some u =>
    right
    exact ⟨not_le.mp h1, by simp only [BatchRecharge, if_neg h1, if_neg h2, hu]⟩

theorem Use_state_cases (s : CoinDB) (id : String) (amount : Int)
    (uid did : String) (now : Nat) (d : Notif → Bool) :
    (Use s id amount uid did now d).state = s ∨
    (∃ cur, GetAccount s id = some cur ∧ amount ≤ cur.coins ∧ 0 < amount ∧
      (Use s id amount uid did now d).state =
        updateRow s id (fun r => { r with coins := r.coins - amount, lastUsageDate := some now })) := by
  by_cases h1 : amount ≤ 0
  · left
    simp only [Use, if_pos h1]
  by_cases h2 : goTrim uid = ""
  · left
    simp only [Use, if_neg h1, if_pos h2]
  cases hu : canonicalUUID uid with
  | none =>
    left
    simp only [Use, if_neg h1, if_neg h2, hu]
  | some u =>
    cases hf : GetAccount s id with
    | none =>
      left
      simp only [Use, if_neg h1, if_neg h2, hu, hf]
    | some cur =>
      by_cases h3 : cur.coins < amount
      · left
        simp only [Use, if_neg h1, if_neg h2, hu, hf, if_pos h3]
      · right
        refine ⟨cur, rfl, not_lt.mp h3, not_le.mp h1, ?_⟩
        simp only [Use, if_neg h1, if_neg h2, hu, hf, if_neg h3]
        cases hget : GetAccount (updateRow s id
            (fun r => { r with coins := r.coins - amount, lastUsageDate := some now })) id <;>
          simp only [hget]

theorem Transfer_state_cases (s : CoinDB) (fromID toID : String) (amount : Int)
    (uid did : String) (now : Nat) (d : Notif → Bool) :
    (Transfer s fromID toID amount uid did now d).state = s ∨
    (∃ f, GetAccount s fromID = some f ∧ amount ≤ f.coins ∧ 0 < amount ∧
      (Transfer s fromID toID amount uid did now d).state =
        updateRow (updateRow s fromID
          (fun r => { r with coins := r.coins - amount, lastUsageDate := some now }))
          toID
          (fun r => { r with coins := r.coins + amount, lastRechargeDate := some now })) := by
  by_cases h1 : amount ≤ 0
  · left
    simp only [Transfer, if_pos h1]
  by_cases h2 : goTrim uid = ""
  · left
    simp only [Transfer, if_neg h1, if_pos h2]
  cases hu : canonicalUUID uid with
  | none =>
    left
    simp only [Transfer, if_neg h1, if_neg h2, hu]
  | some u =>
    cases hf : GetAccount s fromID with
    | none =>
      left
      simp only [Transfer, if_neg h1, if_neg h2, hu, hf]
    | some f =>
      by_cases h3 : f.coins < amount
      · left
        simp only [Transfer, if_neg h1, if_neg h2, hu, hf, if_pos h3]
      · right
        exact ⟨f, rfl, not_lt.mp h3, not_le.mp h1,
          by simp only [Transfer, if_neg h1, if_neg h2, hu, hf, if_neg h3]⟩

theorem SetCoinsExact_state_cases (s : CoinDB) (id : String) (target : Int)
    (uid did : String) (now : Nat) (d : Notif → Bool) :
    (SetCoinsExact s id target uid did now d).state = s ∨
    (SetCoinsExact s id target uid did now d).state =
      updateRow s id (fun r => { r with coins := target }) := by
  by_cases h2 : goTrim uid = ""
  · left
    simp only [SetCoinsExact, if_pos h2]
  cases hu : canonicalUUID uid with
  | none =>
    left
    simp only [SetCoinsExact, if_neg h2, hu]
  | some u =>
    right
    simp only [SetCoinsExact, if_neg h2, hu]
    cases hget : GetAccount (updateRow s id (fun r => { r with coins := target })) id with
    | none => simp only [hget]
    | some a =>
      simp only [hget]
      cases hcur : GetAccount s id with
      | none => simp only [hcur]
      | some c =>
        simp only [hcur]
        by_cases hdelta : a.coins ≠ c.coins
        · rw [if_pos hdelta]
        · rw [if_neg hdelta]

theorem GetAccount_id_eq (s : CoinDB) (id : String) (a : Account)
    (h : GetAccount s id = some a) : a.id = id := by
  unfold GetAccount at h
  have hp := List.find?_some h
  exact beq_iff_eq.mp hp

theorem not_mem_ids_of_absent (s : CoinDB) (id : String)
    (h : GetAccount s id = none) : id ∉ s.map (fun r => r.id) := by
  intro hmem
  obtain ⟨r, hr, hEq⟩ := List.mem_map.mp hmem
  exact (List.find?_eq_none.mp h r hr) (beq_iff_eq.mpr hEq)

theorem goodDB_updateRow (s : CoinDB) (id : String) (g : Account → Account)
    (hg : ∀ r, (g r).id = r.id) (h : goodDB s)
    (hcoins : ∀ r ∈ s, 0 ≤ r.coins → r.id = id → 0 ≤ (g r).coins) :
    goodDB (updateRow s id g) := by
  refine goodDB_map_of_nonneg s _ (fun r => ?_) h (fun r hr hnn => ?_)
  · by_cases hb : (r.id == id) = true
    · rw [if_pos hb]
      exact hg r
    · rw [if_neg hb]
  · by_cases hb : (r.id == id) = true
    · rw [if_pos hb]
      exact hcoins r hr hnn (beq_iff_eq.mp hb)
    · rw [if_neg hb]
      exact hnn

theorem applyOp_good (s : CoinDB) (o : LedgerOp) (h : goodDB s)
    (ho : opSafe o = true) : goodDB (applyOp s o) := by
  cases o with
  | create id init =>
    show goodDB (CreateAccount s id init).state
    cases hget : GetAccount s id with
    | some a =>
      have hst : (CreateAccount s id init).state = s := by
        rw [CreateAccount_present s id init a hget]
      rw [hst]
      exact h
    | none =>
      have hst : (CreateAccount s id init).state = s ++ [⟨id, init.getD 0, none, none⟩] := by
        rw [CreateAccount_absent s id init hget]
      rw [hst]
      constructor
      · rw [List.map_append]
        refine List.nodup_append.mpr ⟨h.1, List.nodup_singleton _, ?_⟩
        intro x hx hx2
        simp only [List.map_cons, List.map_nil, List.mem_singleton] at hx2
        rw [hx2] at hx
        exact not_mem_ids_of_absent s id hget hx
      · intro r hr
        rcases List.mem_append.mp hr with hr | hr
        · exact h.2 r hr
        · have : r = ⟨id, init.getD 0, none, none⟩ := List.mem_singleton.mp hr
          subst this
          exact of_decide_eq_true ho
  | recharge id amount uid did now =>
    show goodDB (Recharge s id amount uid did now (fun _ => true)).state
    rcases Recharge_state_cases s id amount uid did now (fun _ => true) with hst | ⟨hpos, hst⟩
    · rw [hst]
      exact h
    · rw [hst]
      exact goodDB_updateRow s id _ (fun r => rfl) h (fun r _ hnn _ => by
        show (0 : Int) ≤ r.coins + amount
        omega)
  | batchRecharge ids amount uid did now =>
    show goodDB (BatchRecharge s ids amount uid did now (fun _ => true)).state
    rcases BatchRecharge_state_cases s ids amount uid did now (fun _ => true) with hst | ⟨hpos, hst⟩
    · rw [hst]
      exact h
    · rw [hst]
      refine goodDB_map_of_nonneg s _ (fun r => ?_) h (fun r hr hnn => ?_)
      · by_cases hb : ids.contains r.id = true
        · rw [if_pos hb]
        · rw [if_neg hb]
      · by_cases hb : ids.contains r.id = true
        · rw [if_pos hb]
          show (0 : Int) ≤ r.coins + amount
          omega
        · rw [if_neg hb]
          exact hnn
  | use id amount uid did now =>
    show goodDB (Use s id amount uid did now (fun _ => true)).state
    rcases Use_state_cases s id amount uid did now (fun _ => true) with
      hst | ⟨cur, hacc, hle, hpos, hst⟩
    · rw [hst]
      exact h
    · rw [hst]
      have hcurmem : cur ∈ s := List.mem_of_find?_eq_some hacc
      have hcurid : cur.id = id := GetAccount_id_eq s id cur hacc
      refine goodDB_updateRow s id _ (fun r => rfl) h (fun r hr hnn hid => ?_)
      have hrc : r = cur := row_unique_of_nodup_ids h.1 hr hcurmem (hid.trans hcurid.symm)
      subst hrc
      show (0 : Int) ≤ r.coins - amount
      omega
  | transfer src dst amount uid did now =>
    show goodDB (Transfer s src dst amount uid did now (fun _ => true)).state
    rcases Transfer_state_cases s src dst amount uid did now (fun _ => true) with
      hst | ⟨f, hacc, hle, hpos, hst⟩
    · rw [hst]
      exact h
    · rw [hst]
      have hfmem : f ∈ s := List.mem_of_find?_eq_some hacc
      have hfid : f.id = src := GetAccount_id_eq s src f hacc
      have hdeb : goodDB (updateRow s src
          (fun r => { r with coins := r.coins - amount, lastUsageDate := some now })) := by
        refine goodDB_updateRow s src _ (fun r => rfl) h (fun r hr hnn hid => ?_)
        have hrc : r = f := row_unique_of_nodup_ids h.1 hr hfmem (hid.trans hfid.symm)
        subst hrc
        show (0 : Int) ≤ r.coins - amount
        omega
      exact goodDB_updateRow _ dst _ (fun r => rfl) hdeb (fun r _ hnn _ => by
        show (0 : Int) ≤ r.coins + amount
        omega)
  | setExact id target uid did now =>
    show goodDB (SetCoinsExact s id target uid did now (fun _ => true)).state
    rcases SetCoinsExact_state_cases s id target uid did now (fun _ => true) with hst | hst
    · rw [hst]
      exact h
    · rw [hst]
      exact goodDB_updateRow s id _ (fun r => rfl) h (fun r _ _ _ =>
        of_decide_eq_true ho)
  | touchUsage id now =>
    show goodDB (TouchUsage s id now).state
    have hst : (TouchUsage s id now).state =
        updateRow s id (fun r => { r with lastUsageDate := some now }) := rfl
    rw [hst]
    exact goodDB_updateRow s id _ (fun r => rfl) h (fun r _ hnn _ => hnn)
  | delete id =>
    show goodDB (DeleteAccount s id).state
    exact goodDB_filter s _ h

theorem runOps_good (ops : List LedgerOp) :
    ∀ s, goodDB s → (∀ o ∈ ops, opSafe o = true) → goodDB (runOps s ops) := by
  induction ops with
  | nil => intro s hs _; exact hs
  | cons o rest ih =>
    intro s hs hsafe
    exact ih (applyOp s o)
      (applyOp_good s o hs (hsafe o (by simp)))
      (fun o2 h2 => hsafe o2 (by simp [h2]))

/-- Claim C1 counterexample: from the empty store, the single operation
`CreateAccount("a", -1)` (whose initial balance is not validated) reaches
a state holding an account with balance `-1 < 0`. -/
theorem reachable_negative_balance :
    (⟨"a", -1, none, none⟩ : Account) ∈
      runOps [] [.create "a" (some (-1))] ∧ ((-1 : Int) < 0) := by
  decide

/-- Claim C1 (amended): every state reached from the empty store by a
sequence of the public ledger operations whose explicit balance arguments
are non-negative — `CreateAccount` initial balances and `SetExact` targets
`≥ 0`, the only two inputs the code fails to validate — has every
account's balance `≥ 0`: `Recharge`, `BatchRecharge`, `Use`, `Transfer`,
`TouchUsage` and `DeleteAccount` preserve non-negativity unconditionally. -/
theorem reachable_balances_nonneg (ops : List LedgerOp)
    (hsafe : ∀ o ∈ ops, opSafe o = true) :
    ∀ r ∈ runOps [] ops, 0 ≤ r.coins :=
  (runOps_good ops [] ⟨List.nodup_nil, fun r hr => absurd hr (List.not_mem_nil r)⟩ hsafe).2

/-- Claim C1 witness: the spec's end-to-end scenario (create `u1`/`u2`,
recharge, use, transfer, batch-recharge, set-exact, touch, delete) stays
non-negative throughout. -/
theorem reachable_balances_nonneg_witness :
    (∀ o ∈ ([.create "u1" (some 100), .create "u2" (some 50),
      .recharge "u2" 25 "00000000-0000-0000-0000-000000000000" "" 1,
      .use "u1" 10 "00000000-0000-0000-0000-000000000000" "" 2,
      .transfer "u1" "u2" 40 "00000000-0000-0000-0000-000000000000" "" 3,
      .batchRecharge ["u1", "u2"] 5 "00000000-0000-0000-0000-000000000000" "" 4,
      .setExact "u2" 7 "00000000-0000-0000-0000-000000000000" "" 5,
      .touchUsage "u1" 6, .delete "u2"] : List LedgerOp), opSafe o = true) ∧
    ∀ r ∈ runOps [] [.create "u1" (some 100), .create "u2" (some 50),
      .recharge "u2" 25 "00000000-0000-0000-0000-000000000000" "" 1,
      .use "u1" 10 "00000000-0000-0000-0000-000000000000" "" 2,
      .transfer "u1" "u2" 40 "00000000-0000-0000-0000-000000000000" "" 3,
      .batchRecharge ["u1", "u2"] 5 "00000000-0000-0000-0000-000000000000" "" 4,
      .setExact "u2" 7 "00000000-0000-0000-0000-000000000000" "" 5,
      .touchUsage "u1" 6, .delete "u2"], 0 ≤ r.coins :=
  ⟨by decide, reachable_balances_nonneg _ (by decide)⟩

theorem find?_append_some {α : Type} {p : α → Bool} {l1 l2 : List α} {a : α}
    (h : l1.find? p = some a) : (l1 ++ l2).find? p = some a := by
  induction l1 with
  | nil => exact absurd h (by simp)
  | cons x t ih =>
    by_cases hx : p x = true
    · rw [List.find?_cons_of_pos _ hx] at h
      rw [List.cons_append, List.find?_cons_of_pos _ hx]
      exact h
    · rw [List.find?_cons_of_neg _ hx] at h
      rw [List.cons_append, List.find?_cons_of_neg _ hx]
      exact ih h

theorem bucketTokens_setBucket_ne (st : RLState) (k k' : RateKeyT) (n : Nat)
    (hne : k' ≠ k) : bucketTokens (setBucket st k n) k' = bucketTokens st k' := by
  unfold bucketTokens setBucket
  rw [find?_map_comm (fun p => if p.1 == k then (p.1, n) else p)
    (fun p => p.1 == k') (fun a => a) st
    (fun q => by
      dsimp only
      by_cases hq : (q.1 == k) = true
      · rw [if_pos hq]
      · rw [if_neg hq])
    (fun q hq => by
      dsimp only
      have hq' : q.1 = k' := beq_iff_eq.mp hq
      rw [if_neg]
      rw [hq', beq_iff_eq]
      exact hne), Option.map_id']

theorem bucketTokens_append_ne (st : RLState) (k k' : RateKeyT) (m : Nat)
    (hne : k' ≠ k) : bucketTokens (st ++ [(k, m)]) k' = bucketTokens st k' := by
  unfold bucketTokens
  cases hbt : st.find? (fun p => p.1 == k') with
  | some q => rw [find?_append_some hbt]
  | none =>
    rw [find?_append_of_none hbt,
      List.find?_cons_of_neg _ (by
        show ¬(((k, m).1 == k') = true)
        rw [beq_iff_eq]
        exact fun hc => hne hc.symm)]
    rfl

theorem bucketTokens_allowKey_ne (st : RLState) (k k' : RateKeyT) (cfg : RateCfg)
    (hne : k' ≠ k) : bucketTokens (allowKey st k cfg).2 k' = bucketTokens st k' := by
  unfold allowKey
  cases hbt : bucketTokens st k with
  | some n =>
    dsimp only
    by_cases hn : n = 0
    · rw [if_pos hn]
    · rw [if_neg hn]
      exact bucketTokens_setBucket_ne st k k' (n - 1) hne
  | none =>
    dsimp only
    by_cases hb : cfg.burst = 0
    · rw [if_pos hb]
      exact bucketTokens_append_ne st k k' 0 hne
    · rw [if_neg hb]
      exact bucketTokens_append_ne st k k' (cfg.burst - 1) hne

theorem emptyBucketFor_allowKey_ne (st : RLState) (client : String)
    (overrides : List (String × RateCfg)) (defQ defM : RateCfg) (opType : String)
    (f f' : String) (cfg : RateCfg) (hne : f' ≠ f) :
    emptyBucketFor (allowKey st ⟨client, f⟩ cfg).2 client overrides defQ defM opType f' =
      emptyBucketFor st client overrides defQ defM opType f' := by
  unfold emptyBucketFor
  rw [bucketTokens_allowKey_ne st ⟨client, f⟩ ⟨client, f'⟩ cfg
    (fun hc => hne (congrArg RateKeyT.api hc))]

theorem allowKey_fst (st : RLState) (client : String)
    (overrides : List (String × RateCfg)) (defQ defM : RateCfg) (opType f : String) :
    (allowKey st ⟨client, f⟩ (cfgFor overrides defQ defM opType f)).1 =
      !(emptyBucketFor st client overrides defQ defM opType f) := by
  unfold allowKey emptyBucketFor
  cases bucketTokens st ⟨client, f⟩ with
  | some n => by_cases hn : n = 0 <;> simp [hn]
  | none =>
    by_cases hb : (cfgFor overrides defQ defM opType f).burst = 0 <;> simp [hb]

theorem gateLoop_denied (client opType : String) (overrides : List (String × RateCfg))
    (defQ defM : RateCfg) (fields : List String) :
    ∀ st : RLState, fields.Nodup →
    (gateLoop client opType overrides defQ defM st fields).1 =
      fields.filter (fun f => emptyBucketFor st client overrides defQ defM opType f) := by
  induction fields with
  | nil =>
    intro st _
    rfl
  | cons f fs ih =>
    intro st hnodup
    obtain ⟨hf, hfs⟩ := List.nodup_cons.mp hnodup
    have hrec := ih (allowKey st ⟨client, f⟩ (cfgFor overrides defQ defM opType f)).2 hfs
    have hcongr : fs.filter (fun x =>
        emptyBucketFor (allowKey st ⟨client, f⟩ (cfgFor overrides defQ defM opType f)).2
          client overrides defQ defM opType x) =
        fs.filter (fun x => emptyBucketFor st client overrides defQ defM opType x) :=
      List.filter_congr (fun x hx =>
        emptyBucketFor_allowKey_ne st client overrides defQ defM opType f x _
          (fun hEq => hf (hEq ▸ hx)))
    simp only [gateLoop, allowKey_fst, hrec, hcongr, List.filter_cons]
    by_cases he : emptyBucketFor st client overrides defQ defM opType f = true
    · simp [he]
    · simp [he]

/-- Claim C7: for a gated request whose extracted field set is non-empty,
if at least one field's token bucket for this client is empty the entire
request short-circuits with HTTP 429 and the body
`{"error": "rate limit exceeded", "deniedAPIs": [...], "retryAdvice": ...}`
whose `deniedAPIs` lists exactly the empty-bucket fields; if no field's
bucket is empty, the request is forwarded unmodified. -/
theorem gate_denies_whole_request (defQ defM : RateCfg)
    (overrides : List (String × RateCfg)) (st : RLState) (client query : String)
    (hne : (extractAPIs query).2 ≠ []) :
    ((∃ f ∈ (extractAPIs query).2,
        emptyBucketFor st client overrides defQ defM (extractAPIs query).1 f = true) →
      (GraphQLRateLimit defQ defM overrides st client query).1 =
        .denied 429 ⟨"rate limit exceeded",
          (extractAPIs query).2.filter
            (fun f => emptyBucketFor st client overrides defQ defM (extractAPIs query).1 f),
          "retry later or contact server admin for higher limits"⟩) ∧
    ((∀ f ∈ (extractAPIs query).2,
        emptyBucketFor st client overrides defQ defM (extractAPIs query).1 f = false) →
      (GraphQLRateLimit defQ defM overrides st client query).1 = .allowed) := by
  have hnotempty : ¬((extractAPIs query).2.isEmpty = true) := by
    rw [List.isEmpty_iff]
    exact hne
  have hden := gateLoop_denied client (extractAPIs query).1 overrides defQ defM
    (extractAPIs query).2 st (extractAPIs_fields_nodup query)
  constructor
  · rintro ⟨f, hf, hemp⟩
    have hmemfil : f ∈ (extractAPIs query).2.filter
        (fun x => emptyBucketFor st client overrides defQ defM (extractAPIs query).1 x) :=
      List.mem_filter.mpr ⟨hf, hemp⟩
    have hfil : ¬(((extractAPIs query).2.filter
        (fun x => emptyBucketFor st client overrides defQ defM
          (extractAPIs query).1 x)).isEmpty = true) := by
      rw [List.isEmpty_iff]
      exact List.ne_nil_of_mem hmemfil
    simp only [GraphQLRateLimit, if_neg hnotempty, hden, if_neg hfil]
  · intro hall
    have hfil : (extractAPIs query).2.filter
        (fun x => emptyBucketFor st client overrides defQ defM
          (extractAPIs query).1 x) = [] :=
      List.filter_eq_nil_iff.mpr (fun x hx => by
        rw [hall x hx]
        exact Bool.false_ne_true)
    have hfilempty : ((extractAPIs query).2.filter
        (fun x => emptyBucketFor st client overrides defQ defM
          (extractAPIs query).1 x)).isEmpty = true := by
      rw [List.isEmpty_iff]
      exact hfil
    simp only [GraphQLRateLimit, if_neg hnotempty, hden, if_pos hfilempty]

/-- Claim C7 witness: client `c` posts `mutation{ a b }` with an empty
bucket for field `a` and a fresh bucket for `b` — the whole request is
denied with `deniedAPIs = [a]` and the documented body. -/
theorem gate_denies_whole_request_witness :
    (GraphQLRateLimit ⟨60, 30⟩ ⟨20, 10⟩ [] [(⟨"c", "a"⟩, 0)] "c" "mutation{ a b }").1 =
      .denied 429 ⟨"rate limit exceeded", ["a"],
        "retry later or contact server admin for higher limits"⟩ :=
  (gate_denies_whole_request ⟨60, 30⟩ ⟨20, 10⟩ [] [(⟨"c", "a"⟩, 0)] "c" "mutation{ a b }"
    (by decide)).1 ⟨"a", by decide, by decide⟩
